import Mathlib

/-!
Verification development for the fxdemo repository: an HTTP application
wired through a dependency-injection container with named/grouped bindings
and lifecycle (start/stop) hooks.  The container framework itself is not
part of the repository's sources (only its usage is), so the resolver,
group collector, lifecycle manager and application container are modelled
from the specification; the route/mux/handler/server functions are
translated from the repository's Go sources.
-/

namespace Fxdemo

/-- The capabilities (Go types) produced by providers in this program:
`*zap.Logger`, `*http.ServeMux`, `*http.Server`, and the `Route` interface. -/
inductive Capability where
  | logger
  | serveMux
  | httpServer
  | route
deriving DecidableEq, Repr

/-- Modelled from the spec: a BindingKey is a capability identifier plus an
optional name string plus an optional group string; two keys are equal iff
all three fields match. -/
structure Key where
  capability : Capability
  name : Option String
  group : Option String
deriving DecidableEq, Repr

/-- Constructed instances, abstracted as natural numbers. -/
abbrev Value := Nat

/-- Modelled from the spec: a lifecycle hook is a start/stop action pair;
each action's outcome is abstracted as a success flag, and `id` identifies
the hook in invocation traces. -/
structure Hook where
  id : Nat
  startOk : Bool
  stopOk : Bool
deriving DecidableEq, Repr

/-- Modelled from the spec: a ProviderDescriptor declares the key it
produces, the ordered list of keys it requires, its constructor function,
and the lifecycle hook (if any) the constructor registers as a side
effect. -/
structure Descriptor where
  key : Key
  deps : List Key
  ctor : List Value → Value
  hook : Option Hook

/-- Modelled from the spec: the provider registry, in declaration order. -/
abbrev Registry := List Descriptor

/-- First-match lookup in the instance cache. -/
def lookupCache : List (Key × Value) → Key → Option Value
  | [], _ => none
  | (k', v) :: rest, k => if k' = k then some v else lookupCache rest k

/-- Modelled from the spec: `lookup(key)` returns the descriptor producing a
singular key (first registered match). -/
def regLookup : Registry → Key → Option Descriptor
  | [], _ => none
  | d :: rest, k => if d.key = k then some d else regLookup rest k

/-- Resolution errors.  `fuel` is an artifact of the fuel-based embedding of
the recursive resolver and never occurs with sufficient fuel. -/
inductive RErr where
  | missing (k : Key)
  | cycle (path : List Key)
  | fuel
deriving DecidableEq, Repr

/-- Resolver state: the instance cache, the stack of keys whose resolution
is in progress (most recent first), and the log of keys whose constructor
has executed, in construction order. -/
structure RState where
  cache : List (Key × Value)
  inProgress : List Key
  log : List Key
deriving DecidableEq, Repr

/-- Modelled from the spec: the cycle reported when `k` is requested while
already in progress — the ordered list of keys from the first repeated key
to itself. -/
def cyclePath (k : Key) (stack : List Key) : List Key :=
  (stack.reverse.dropWhile (fun q => q ≠ k)) ++ [k]

mutual

/-- Modelled from the spec: `resolve(key)` — return the cached value if
present; fail with a `CycleError` if the key is already in progress; fail
with `MissingBindingError` if no producer is registered; otherwise mark the
key in progress, resolve its dependencies recursively in order, then run
the constructor, cache the result and log the construction. -/
def resolve (reg : Registry) : Nat → Key → RState → RState × Except RErr Value
  | 0, _, s => (s, .error .fuel)
  | n + 1, k, s =>
    match lookupCache s.cache k with
    | some v => (s, .ok v)
    | none =>
      if k ∈ s.inProgress then
        (s, .error (.cycle (cyclePath k s.inProgress)))
      else
        match regLookup reg k with
        | none => (s, .error (.missing k))
        | some d =>
          match resolveMany reg n d.deps ⟨s.cache, k :: s.inProgress, s.log⟩ with
          | (s2, .error e) => (s2, .error e)
          | (s2, .ok vs) =>
            (⟨(k, d.ctor vs) :: s2.cache, s.inProgress, s2.log ++ [k]⟩, .ok (d.ctor vs))

/-- Resolve a list of keys left to right, threading the resolver state. -/
def resolveMany (reg : Registry) : Nat → List Key → RState → RState × Except RErr (List Value)
  | _, [], s => (s, .ok [])
  | 0, _ :: _, s => (s, .error .fuel)
  | n + 1, k :: ks, s =>
    match resolve reg n k s with
    | (s1, .error e) => (s1, .error e)
    | (s1, .ok v) =>
      match resolveMany reg n ks s1 with
      | (s2, .error e) => (s2, .error e)
      | (s2, .ok vs) => (s2, .ok (v :: vs))

end

/-- Resolving a cached key is a pure cache hit: the cached value is returned
and the state is untouched. -/
theorem resolve_of_cached (reg : Registry) (n : Nat) (k : Key) (s : RState) (v : Value)
    (h : lookupCache s.cache k = some v) :
    resolve reg (n + 1) k s = (s, .ok v) := by
  simp [resolve, h]

/-- Cache entries survive any resolver step: `resolve` and `resolveMany`
only ever add entries for keys that were not yet cached. -/
theorem resolve_cache_mono (reg : Registry) : ∀ n : Nat,
    (∀ k s p, resolve reg n k s = p →
      ∀ q v, lookupCache s.cache q = some v → lookupCache p.1.cache q = some v)
    ∧ (∀ ks s p, resolveMany reg n ks s = p →
      ∀ q v, lookupCache s.cache q = some v → lookupCache p.1.cache q = some v) := by
  intro n
  induction n with
  | zero =>
    refine ⟨?_, ?_⟩
    · intro k s p hp q v hv
      simp only [resolve] at hp
      subst hp; exact hv
    · intro ks s p hp q v hv
      cases ks with
      | nil => simp only [resolveMany] at hp; subst hp; exact hv
      | cons k ks => simp only [resolveMany] at hp; subst hp; exact hv
  | succ n ih =>
    refine ⟨?_, ?_⟩
    · intro k s p hp q v hv
      simp only [resolve] at hp
      split at hp
      · subst hp; exact hv
      · split at hp
        · subst hp; exact hv
        · split at hp
          · subst hp; exact hv
          · rename_i hnc _ _ d hd
            split at hp
            · rename_i s2 e hmany
              subst hp
              exact ih.2 d.deps ⟨s.cache, k :: s.inProgress, s.log⟩ (s2, .error e) hmany q v hv
            · rename_i s2 vs hmany
              subst hp
              have h2 : lookupCache s2.cache q = some v :=
                ih.2 d.deps ⟨s.cache, k :: s.inProgress, s.log⟩ (s2, .ok vs) hmany q v hv
              have hqk : k ≠ q := by
                intro hkq; subst hkq; rw [hv] at hnc; exact Option.noConfusion hnc
              simpa [lookupCache, hqk] using h2
    · intro ks s p hp q v hv
      cases ks with
      | nil => simp only [resolveMany] at hp; subst hp; exact hv
      | cons k ks =>
        simp only [resolveMany] at hp
        split at hp
        · rename_i s1 e hres
          subst hp
          exact ih.1 k s (s1, .error e) hres q v hv
        · rename_i s1 v1 hres
          have h1 : lookupCache s1.cache q = some v := ih.1 k s (s1, .ok v1) hres q v hv
          split at hp
          · rename_i s2 e hmany
            subst hp
            exact ih.2 ks s1 (s2, .error e) hmany q v h1
          · rename_i s2 vs hmany
            subst hp
            exact ih.2 ks s1 (s2, .ok vs) hmany q v h1

/-- A successful `resolve` leaves the requested key in the cache bound to
the returned value. -/
theorem resolve_ok_cache (reg : Registry) (n : Nat) (k : Key) (s s' : RState) (v : Value)
    (h : resolve reg n k s = (s', .ok v)) :
    lookupCache s'.cache k = some v := by
  cases n with
  | zero => simp only [resolve] at h; simp at h
  | succ n =>
    simp only [resolve] at h
    split at h
    · rename_i v' hc
      obtain ⟨rfl, hv⟩ := Prod.mk.injEq .. ▸ h
      simp only [Except.ok.injEq] at hv
      subst hv; exact hc
    · split at h
      · simp at h
      · split at h
        · simp at h
        · split at h
          · simp at h
          · rename_i s2 vs hmany
            obtain ⟨hs, hv⟩ := Prod.mk.injEq .. ▸ h
            simp only [Except.ok.injEq] at hv
            subst hs; subst hv
            simp [lookupCache]

/-- A successful `resolveMany` returns one value per requested key, and the
final cache binds the i-th requested key to the i-th returned value. -/
theorem resolveMany_ok_spec (reg : Registry) : ∀ (ks : List Key) (n : Nat) (s s' : RState) (vs : List Value),
    resolveMany reg n ks s = (s', .ok vs) →
    vs.length = ks.length ∧
    ∀ i (hi : i < ks.length) (hv : i < vs.length),
      lookupCache s'.cache (ks.get ⟨i, hi⟩) = some (vs.get ⟨i, hv⟩) := by
  intro ks
  induction ks with
  | nil =>
    intro n s s' vs h
    have h' : (s, (.ok [] : Except RErr (List Value))) = (s', .ok vs) := by
      rw [← h]; cases n <;> simp only [resolveMany]
    obtain ⟨rfl, hv⟩ := Prod.mk.injEq .. ▸ h'
    simp only [Except.ok.injEq] at hv
    subst hv
    exact ⟨rfl, fun i hi _ => absurd hi (by simp)⟩
  | cons k ks ih =>
    intro n s s' vs h
    cases n with
    | zero => simp only [resolveMany] at h; simp at h
    | succ n =>
      simp only [resolveMany] at h
      split at h
      · simp at h
      · rename_i s1 v1 hres
        split at h
        · simp at h
        · rename_i s2 vs2 hmany
          obtain ⟨rfl, hv⟩ := Prod.mk.injEq .. ▸ h
          simp only [Except.ok.injEq] at hv
          subst hv
          obtain ⟨hlen, hidx⟩ := ih n s1 s2 vs2 hmany
          refine ⟨by simp [hlen], ?_⟩
          intro i hi hv
          cases i with
          | zero =>
            have h1 : lookupCache s1.cache k = some v1 :=
              resolve_ok_cache reg n k s s1 v1 hres
            exact (resolve_cache_mono reg n).2 ks s1 (s2, .ok vs2) hmany k v1 h1
          | succ i =>
            exact hidx i (Nat.lt_of_succ_lt_succ hi) (Nat.lt_of_succ_lt_succ hv)

/-- Modelled from the spec: group membership is determined statically from
registration metadata — the member keys of a group, in provider declaration
order. -/
def groupMembers (reg : Registry) (g : String) : List Key :=
  (reg.filter (fun d => decide (d.key.group = some g))).map (fun d => d.key)

/-- Modelled from the spec: `resolveGroup(groupName)` resolves every member
key of the group via the graph resolver and returns them as an ordered
sequence in declaration order. -/
def resolveGroup (reg : Registry) (n : Nat) (g : String) (s : RState) :
    RState × Except RErr (List Value) :=
  resolveMany reg n (groupMembers reg g) s

/-- Binding key of the `*zap.Logger` provided by `zap.NewExample`. -/
def kLogger : Key := ⟨.logger, none, none⟩

/-- Binding key of the echo handler: a `Route` in the `"routes"` group
(named `"echo"` in the named-values variant). -/
def kEcho : Key := ⟨.route, some "echo", some "routes"⟩

/-- Binding key of the hello handler: a `Route` in the `"routes"` group
(named `"hello"` in the named-values variant). -/
def kHello : Key := ⟨.route, some "hello", some "routes"⟩

/-- Binding key of the `*http.ServeMux` provided by `NewServeMux`. -/
def kMux : Key := ⟨.serveMux, none, none⟩

/-- Binding key of the `*http.Server` provided by `NewHTTPServer`. -/
def kServer : Key := ⟨.httpServer, none, none⟩

/-- The start/stop hook `NewHTTPServer` appends to the lifecycle. -/
def serverHook : Hook := ⟨0, true, true⟩

/-- The provider registry assembled by `main`'s `fx.Provide` call, in
declaration order: `NewHTTPServer`, `NewServeMux` (consuming the `"routes"`
group), `AsRoute(NewEchoHandler)`, `AsRoute(NewHelloHandler)`,
`zap.NewExample`.  Constructed values are abstracted as distinct numbers. -/
def demoRegistry : Registry :=
  [⟨kServer, [kMux, kLogger], fun _ => 5, some serverHook⟩,
   ⟨kMux, [kEcho, kHello], fun _ => 4, none⟩,
   ⟨kEcho, [kLogger], fun _ => 2, none⟩,
   ⟨kHello, [kLogger], fun _ => 3, none⟩,
   ⟨kLogger, [], fun _ => 1, none⟩]

/-- Observable lifecycle events: invocation of a hook's start or stop
action, identified by the hook's id. -/
inductive Ev where
  | start (id : Nat)
  | stop (id : Nat)
deriving DecidableEq, Repr

/-- Modelled from the spec: run the remaining hooks' start actions in
order, `started` holding the already-started hooks most recent first; on a
start failure, invoke the stop action of every previously-started hook in
reverse order as compensation (not the failing hook's own stop) and fail. -/
def startFrom (started : List Hook) : List Hook → List Ev × Bool
  | [] => ([], true)
  | h :: rest =>
    if h.startOk then
      let (tr, ok) := startFrom (h :: started) rest
      (Ev.start h.id :: tr, ok)
    else
      (Ev.start h.id :: started.map (fun g => Ev.stop g.id), false)

/-- Modelled from the spec: `startAll()` executes each hook's start action
in registration order, with compensating stops on failure. -/
def startAll (hooks : List Hook) : List Ev × Bool :=
  startFrom [] hooks

/-- Modelled from the spec: `stopAll` invokes every hook's stop action in
reverse registration order, regardless of individual failures; it returns
the invocation trace and the ids of the hooks whose stop failed. -/
def stopAll (hooks : List Hook) : List Ev × List Nat :=
  (hooks.reverse.map (fun h => Ev.stop h.id),
   (hooks.reverse.filter (fun h => !h.stopOk)).map (fun h => h.id))

/-- Modelled from the spec: the application phase state machine. -/
inductive Phase where
  | idle
  | resolving
  | starting
  | running
  | stopping
  | stopped
  | failed
deriving DecidableEq, Repr

/-- The lifecycle hooks registered during resolution, in construction
order: the hook (if any) of each constructed provider, following the
resolver's construction log. -/
def collectHooks (reg : Registry) (log : List Key) : List Hook :=
  log.filterMap (fun k => (regLookup reg k).bind (fun d => d.hook))

/-- Modelled from the spec: `run(invokeTargets)` resolves every invoke
target, then — only if resolution fully succeeded — starts the registered
hooks; a resolution failure fails the run without starting anything.
Returns the sequence of phases traversed and the lifecycle event trace. -/
def run (reg : Registry) (n : Nat) (targets : List Key) : List Phase × List Ev :=
  match resolveMany reg n targets ⟨[], [], []⟩ with
  | (_, .error _) => ([.idle, .resolving, .failed], [])
  | (s, .ok _) =>
    let (tr, ok) := startAll (collectHooks reg s.log)
    if ok then ([.idle, .resolving, .starting, .running], tr)
    else ([.idle, .resolving, .starting, .failed], tr)

/-- A running application, as seen by the lifecycle manager: its hooks, its
phase and the lifecycle events emitted so far. -/
structure AppState where
  hooks : List Hook
  phase : Phase
  trace : List Ev
deriving DecidableEq, Repr

/-- Modelled from the spec: application-level `stopAll` — a no-op returning
success when the phase is already Stopped; otherwise it stops every hook in
reverse order and moves to Stopped (or Failed if some stop failed). -/
def appStopAll (a : AppState) : AppState × Bool :=
  if a.phase = Phase.stopped then
    (a, true)
  else
    let (tr, fails) := stopAll a.hooks
    (⟨a.hooks, if fails.isEmpty then .stopped else .failed, a.trace ++ tr⟩, fails.isEmpty)

/-- A route value at the mux boundary: its registration pattern and the
identity of its handler. -/
structure RouteVal where
  pattern : String
  hid : Nat
deriving DecidableEq, Repr

/-- Modelled from the spec: the dispatch table of an `http.ServeMux` at the
route boundary — `Handle` binds a pattern to a handler, later registrations
of the same pattern overriding earlier ones (last-registration-wins).
Entries are kept most recent first, and dispatch takes the first match. -/
def muxHandle (m : List (String × RouteVal)) (p : String) (r : RouteVal) :
    List (String × RouteVal) :=
  (p, r) :: m

/-- Dispatch: the handler the mux maps a pattern to. -/
def muxLookup (m : List (String × RouteVal)) (p : String) : Option RouteVal :=
  (m.find? (fun e => decide (e.1 = p))).map (fun e => e.2)

/-- `NewServeMux` from the source: build a mux and register each collected
route under its own pattern, iterating the group in order. -/
def NewServeMux (routes : List RouteVal) : List (String × RouteVal) :=
  routes.foldl (fun m r => muxHandle m r.pattern r) []

/-- An HTTP response as the echo handler observes it: the bytes written to
the body and the explicitly-set status code, if any. -/
structure HttpResponse where
  written : List Nat
  status : Option Nat
deriving DecidableEq, Repr

/-- Outcome of the `io.Copy` call: success, or failure after writing a
prefix of the source. -/
inductive CopyOutcome where
  | ok
  | fail (k : Nat)
deriving DecidableEq, Repr

/-- Modelled from the spec: `io.Copy(w, r.Body)` at the opaque transport
boundary — on success it appends the whole request body to the response
writer and reports no error; on failure it appends some prefix and reports
an error. -/
def ioCopy (w : HttpResponse) (body : List Nat) : CopyOutcome → HttpResponse × Bool
  | .ok => (⟨w.written ++ body, w.status⟩, true)
  | .fail k => (⟨w.written ++ body.take k, w.status⟩, false)

/-- Log levels used by the echo handler. -/
inductive LogLevel where
  | info
  | warn
deriving DecidableEq, Repr

/-- `EchoHandler.ServeHTTP` from the source: copy the request body to the
response writer; log a warning if the copy failed, an info line otherwise.
No status code is ever set and nothing beyond the copied body is written. -/
def echoServeHTTP (w : HttpResponse) (body : List Nat) (oc : CopyOutcome) :
    HttpResponse × LogLevel :=
  let (w', copied) := ioCopy w body oc
  if copied then (w', .info) else (w', .warn)

/-- Observable steps of the `OnStart` hook of `NewHTTPServer`. -/
inductive NetEv where
  | listen
  | logStarting
  | serveLaunched
deriving DecidableEq, Repr

/-- The `OnStart` hook from `NewHTTPServer` in the source: call
`net.Listen`; on failure return the listen error at once; on success log
the start line, launch the serving goroutine and return success.  The
result of `net.Listen` is the hook's input; the hook returns its event
trace and the error it reports, if any. -/
def httpOnStart : Except String Unit → List NetEv × Option String
  | .error e => ([.listen], some e)
  | .ok _ => ([.listen, .logStarting, .serveLaunched], none)

theorem newServeMux_foldl (routes : List RouteVal) (acc : List (String × RouteVal)) :
    routes.foldl (fun m r => muxHandle m r.pattern r) acc
      = (routes.map (fun r => (r.pattern, r))).reverse ++ acc := by
  induction routes generalizing acc with
  | nil => simp
  | cons r rs ih =>
    rw [List.foldl_cons, ih]
    simp [muxHandle]

theorem find?_pattern_map (p : String) (l : List RouteVal) :
    (l.map (fun r => (r.pattern, r))).find? (fun e => decide (e.1 = p))
      = (l.find? (fun r => decide (r.pattern = p))).map (fun r => (r.pattern, r)) := by
  induction l with
  | nil => simp
  | cons r rs ih => by_cases h : r.pattern = p <;> simp [List.find?, h, ih]

/-- C1: `NewServeMux` iterates the collected routing group in order and
registers each route by its pattern; in the resulting dispatch table every
pattern is mapped to the last route in collection order carrying that
pattern (last-registration-wins). -/
theorem claim_c1_last_registration_wins (routes : List RouteVal) (p : String) :
    muxLookup (NewServeMux routes) p
      = routes.reverse.find? (fun r => decide (r.pattern = p)) := by
  rw [NewServeMux, newServeMux_foldl, muxLookup, List.append_nil,
    ← List.map_reverse, find?_pattern_map]
  cases routes.reverse.find? (fun r => decide (r.pattern = p)) <;> simp

/-- C2: resolving the same singular key twice within one invoke-target
resolution returns the identical cached instance — once `resolve` has
produced `v` in state `s'`, resolving the key again yields the same `v` and
leaves the state (in particular the construction log, so no constructor
runs again) unchanged. -/
theorem claim_c2_singleton_law (reg : Registry) (n : Nat) (k : Key) (s s' : RState)
    (v : Value) (h : resolve reg n k s = (s', .ok v)) (m : Nat) :
    resolve reg (m + 1) k s' = (s', .ok v) :=
  resolve_of_cached reg m k s' v (resolve_ok_cache reg n k s s' v h)

theorem claim_c2_singleton_law_witness :
    resolve demoRegistry 3 kLogger ⟨[(kLogger, 1)], [], [kLogger]⟩
      = (⟨[(kLogger, 1)], [], [kLogger]⟩, .ok 1) :=
  claim_c2_singleton_law demoRegistry 2 kLogger ⟨[], [], []⟩
    ⟨[(kLogger, 1)], [], [kLogger]⟩ 1 rfl 2

/-- C3: with hooks H1 registered before H2, `startAll` invokes H1's start
before H2's start; if H2's start fails, H1's stop runs as compensation
while H2's stop does not run; and `stopAll` on a fully started pair invokes
H2's stop before H1's stop. -/
theorem claim_c3_lifecycle_ordering (h1 h2 : Hook) :
    (h1.startOk = true → h2.startOk = true →
      startAll [h1, h2] = ([Ev.start h1.id, Ev.start h2.id], true))
    ∧ (h1.startOk = true → h2.startOk = false →
      startAll [h1, h2] = ([Ev.start h1.id, Ev.start h2.id, Ev.stop h1.id], false)
      ∧ (h1.id ≠ h2.id → Ev.stop h2.id ∉ (startAll [h1, h2]).1))
    ∧ (stopAll [h1, h2]).1 = [Ev.stop h2.id, Ev.stop h1.id] := by
  refine ⟨?_, ?_, ?_⟩
  · intro ha hb
    simp [startAll, startFrom, ha, hb]
  · intro ha hb
    refine ⟨by simp [startAll, startFrom, ha, hb], ?_⟩
    intro hne
    simp [startAll, startFrom, ha, hb, Ev.stop.injEq, Ne.symm hne]
  · simp [stopAll]

theorem claim_c3_lifecycle_ordering_witness :
    startAll [⟨1, true, true⟩, ⟨2, false, true⟩]
      = ([Ev.start 1, Ev.start 2, Ev.stop 1], false) :=
  ((claim_c3_lifecycle_ordering ⟨1, true, true⟩ ⟨2, false, true⟩).2.1 rfl rfl).1

/-- C4: on a registry whose singular bindings form the cycle A→B→A,
resolving either key of the cycle fails with a `CycleError` whose reported
path is exactly the cycle (from the first repeated key back to itself), and
the construction log of the returned state is empty — no constructor in the
cycle executed before the error was reported. -/
theorem claim_c4_cycle_detection (a b : Key) (f g : List Value → Value) (hab : a ≠ b) :
    resolve [⟨a, [b], f, none⟩, ⟨b, [a], g, none⟩] 9 a ⟨[], [], []⟩
      = (⟨[], [b, a], []⟩, .error (.cycle [a, b, a]))
    ∧ resolve [⟨a, [b], f, none⟩, ⟨b, [a], g, none⟩] 9 b ⟨[], [], []⟩
      = (⟨[], [a, b], []⟩, .error (.cycle [b, a, b])) := by
  constructor <;>
    simp [resolve, resolveMany, lookupCache, regLookup, cyclePath, hab, Ne.symm hab]

theorem claim_c4_cycle_detection_witness :
    resolve [⟨kEcho, [kHello], fun _ => 2, none⟩, ⟨kHello, [kEcho], fun _ => 3, none⟩]
        9 kEcho ⟨[], [], []⟩
      = (⟨[], [kHello, kEcho], []⟩, .error (.cycle [kEcho, kHello, kEcho])) :=
  (claim_c4_cycle_detection kEcho kHello (fun _ => 2) (fun _ => 3) (by decide)).1

/-- C5: `resolveGroup` returns exactly one value per registered group
member, the i-th returned value being the instance bound to the i-th member
in provider declaration order; membership is unchanged by interleaving
providers that are not in the group; and a group with no members resolves
to the empty sequence rather than an error. -/
theorem claim_c5_group_resolution :
    (∀ (reg : Registry) (g : String) (n : Nat) (s s' : RState) (vs : List Value),
      resolveGroup reg n g s = (s', .ok vs) →
      vs.length = (groupMembers reg g).length ∧
      ∀ i (hi : i < (groupMembers reg g).length) (hv : i < vs.length),
        lookupCache s'.cache ((groupMembers reg g).get ⟨i, hi⟩) = some (vs.get ⟨i, hv⟩))
    ∧ (∀ (reg1 reg2 : Registry) (d : Descriptor) (g : String),
      d.key.group ≠ some g →
      groupMembers (reg1 ++ d :: reg2) g = groupMembers (reg1 ++ reg2) g)
    ∧ (∀ (reg : Registry) (g : String) (n : Nat) (s : RState),
      groupMembers reg g = [] → resolveGroup reg n g s = (s, .ok [])) := by
  refine ⟨?_, ?_, ?_⟩
  · intro reg g n s s' vs h
    exact resolveMany_ok_spec reg (groupMembers reg g) n s s' vs h
  · intro reg1 reg2 d g h
    simp [groupMembers, List.filter_append, List.filter_cons, h]
  · intro reg g n s h
    rw [resolveGroup, h]
    cases n <;> simp only [resolveMany]

theorem claim_c5_group_resolution_witness :
    ([2, 3] : List Value).length = (groupMembers demoRegistry "routes").length :=
  (claim_c5_group_resolution.1 demoRegistry "routes" 9 ⟨[], [], []⟩
    ⟨[(kHello, 3), (kEcho, 2), (kLogger, 1)], [], [kLogger, kEcho, kHello]⟩
    [2, 3] rfl).1

/-- C6: with two providers bound to the same capability under distinct
names, a consumer declaring both named dependencies receives, for each
declared name, exactly the instance produced by the provider of that name
(no cross-wiring); and resolving a name with no registered producer fails
with `MissingBindingError`. -/
theorem claim_c6_named_bindings (cap : Capability) (n1 n2 : String)
    (f1 f2 : List Value → Value) (hne : n1 ≠ n2) :
    (resolveMany [⟨⟨cap, some n1, none⟩, [], f1, none⟩, ⟨⟨cap, some n2, none⟩, [], f2, none⟩]
        5 [⟨cap, some n1, none⟩, ⟨cap, some n2, none⟩] ⟨[], [], []⟩).2
      = .ok [f1 [], f2 []]
    ∧ ∀ n3, n3 ≠ n1 → n3 ≠ n2 →
      (resolve [⟨⟨cap, some n1, none⟩, [], f1, none⟩, ⟨⟨cap, some n2, none⟩, [], f2, none⟩]
          5 ⟨cap, some n3, none⟩ ⟨[], [], []⟩).2
        = .error (.missing ⟨cap, some n3, none⟩) := by
  constructor
  · simp [resolveMany, resolve, lookupCache, regLookup, Key.mk.injEq, hne]
  · intro n3 h1 h2
    simp [resolve, resolveMany, lookupCache, regLookup, Key.mk.injEq, Ne.symm h1, Ne.symm h2]

theorem claim_c6_named_bindings_witness :
    (resolveMany [⟨⟨.route, some "echo", none⟩, [], fun _ => 2, none⟩,
        ⟨⟨.route, some "hello", none⟩, [], fun _ => 3, none⟩]
        5 [⟨.route, some "echo", none⟩, ⟨.route, some "hello", none⟩] ⟨[], [], []⟩).2
      = .ok [2, 3] :=
  (claim_c6_named_bindings .route "echo" "hello" (fun _ => 2) (fun _ => 3) (by decide)).1

/-- C7: if resolution of the invoke targets fails for any reason, `run`
fails without invoking any lifecycle hook's start action — the event trace
is empty and the Starting phase is never reached. -/
theorem claim_c7_fail_without_start (reg : Registry) (n : Nat) (targets : List Key)
    (s' : RState) (e : RErr)
    (h : resolveMany reg n targets ⟨[], [], []⟩ = (s', .error e)) :
    run reg n targets = ([Phase.idle, Phase.resolving, Phase.failed], [])
    ∧ Phase.starting ∉ (run reg n targets).1
    ∧ (run reg n targets).2 = [] := by
  have hr : run reg n targets = ([Phase.idle, Phase.resolving, Phase.failed], []) := by
    simp [run, h]
  exact ⟨hr, by rw [hr]; simp, by rw [hr]⟩

theorem claim_c7_fail_without_start_witness :
    run ([] : Registry) 2 [kLogger] = ([Phase.idle, Phase.resolving, Phase.failed], [])
    ∧ Phase.starting ∉ (run ([] : Registry) 2 [kLogger]).1
    ∧ (run ([] : Registry) 2 [kLogger]).2 = [] :=
  claim_c7_fail_without_start [] 2 [kLogger] ⟨[], [], []⟩ (.missing kLogger) rfl

/-- C8: calling `stopAll` at the application level when the phase is
already Stopped invokes no stop action, leaves the whole state (hooks,
phase and event trace) unchanged, and returns success. -/
theorem claim_c8_stopAll_idempotent (a : AppState) (h : a.phase = Phase.stopped) :
    appStopAll a = (a, true) := by
  simp [appStopAll, h]

theorem claim_c8_stopAll_idempotent_witness :
    appStopAll ⟨[⟨0, true, true⟩], Phase.stopped, [Ev.stop 0]⟩
      = (⟨[⟨0, true, true⟩], Phase.stopped, [Ev.stop 0]⟩, true) :=
  claim_c8_stopAll_idempotent ⟨[⟨0, true, true⟩], Phase.stopped, [Ev.stop 0]⟩ rfl

/-- C9: when the body copy succeeds, `EchoHandler.ServeHTTP` writes exactly
the request body to the response, byte for byte, and logs at info level;
moreover it never sets a status code, whatever the copy outcome. -/
theorem claim_c9_echo_verbatim (body : List Nat) :
    echoServeHTTP ⟨[], none⟩ body .ok = (⟨body, none⟩, .info)
    ∧ ∀ oc, (echoServeHTTP ⟨[], none⟩ body oc).1.status = none := by
  constructor
  · simp [echoServeHTTP, ioCopy]
  · intro oc
    cases oc <;> simp [echoServeHTTP, ioCopy]

/-- C10: in the `OnStart` hook of `NewHTTPServer`, a failed `net.Listen`
makes the hook return that very error with the serving goroutine never
launched; the serving goroutine is launched exactly when the hook reports
success. -/
theorem claim_c10_onstart_no_serve (r : Except String Unit) :
    (∀ e, r = .error e → httpOnStart r = ([NetEv.listen], some e)
      ∧ NetEv.serveLaunched ∉ (httpOnStart r).1)
    ∧ (NetEv.serveLaunched ∈ (httpOnStart r).1 ↔ (httpOnStart r).2 = none) := by
  cases r <;> simp [httpOnStart]

theorem claim_c10_onstart_no_serve_witness :
    httpOnStart (.error "listen tcp :8080: address already in use")
      = ([NetEv.listen], some "listen tcp :8080: address already in use")
    ∧ NetEv.serveLaunched
      ∉ (httpOnStart (.error "listen tcp :8080: address already in use")).1 :=
  (claim_c10_onstart_no_serve (.error "listen tcp :8080: address already in use")).1
    "listen tcp :8080: address already in use" rfl

end Fxdemo
